import Mathlib

/-!
Shallow embedding of `mnemonic_validator` (`src/main.rs`), the concurrent,
checkpointed, cancellable batch line-processor.

The embedding models:
* the checkpoint store (`load` at main.rs:79-83, cadence writes at main.rs:156-159,
  the Ctrl+C handler write at main.rs:112-118, the completion write/remove at
  main.rs:200-204);
* the line pipeline of `process_file` (main.rs:130-188): lines are enumerated,
  filtered by `i >= checkpoint`, and handed to parallel workers whose per-line
  body increments `processed`, stores `current_position`, runs the validity
  predicate on the line and appends matches to the output sink;
* `format_duration` (main.rs:34-45).

The BIP39 validity check (`is_valid`, main.rs:30-32) delegates to the external
`bip39` crate and is therefore kept abstract: every statement is parametric in
the predicate `P : String → Bool`.

Concurrency model: rayon's `par_bridge` pulls the filtered lines in order and
hands each to exactly one worker; a worker executes the per-line body. We model
an execution as the list of per-line bodies in the order they complete
(`runSched`); a schedule of a run interrupted by Ctrl+C is any duplicate-free
list of items drawn from the filtered stream (with enough worker threads, any
such completion order is realizable, because a worker holding an earlier line
may stall before its body while later lines are pulled and completed).
-/

namespace MnemonicValidator

/-- State of the checkpoint file as seen by `process_file` (main.rs:79-83):
it may be absent, present with some textual content, or present but failing
to read with an I/O error. -/
inductive FileState where
  | absent
  | present (content : String)
  | readError
deriving DecidableEq

/-- ASCII decimal digit test, as used by Rust's `usize::from_str`. -/
def isAsciiDigit (c : Char) : Bool := '0' ≤ c && c ≤ '9'

/-- Numeric value of a list of decimal digit characters (most significant first). -/
def digitsVal : List Char → Nat → Nat
  | [], acc => acc
  | c :: cs, acc => digitsVal cs (acc * 10 + (c.toNat - '0'.toNat))

/-- Model of Rust `str::parse::<usize>()` (main.rs:80): an optional leading
`'+'`, then at least one ASCII digit and nothing else; errors on overflow of
the 64-bit `usize`. Returns `none` exactly when Rust returns `Err`. -/
def rustParseUsize (s : String) : Option Nat :=
  let cs := match s.data with
    | '+' :: rest => rest
    | other => other
  if cs ≠ [] ∧ cs.all isAsciiDigit then
    let v := digitsVal cs 0
    if v < 2 ^ 64 then some v else none
  else none

/-- Checkpoint loading (main.rs:79-83): absent file yields 0; a file that is
read successfully is parsed, with parse failure defaulting to 0 via
`unwrap_or(0)`; an I/O read failure propagates via `?`. -/
def loadCheckpoint : FileState → Except Unit Nat
  | FileState.absent => Except.ok 0
  | FileState.present c => Except.ok ((rustParseUsize c).getD 0)
  | FileState.readError => Except.error ()

/-- Rust's `{:02}` formatting of a non-negative integer: decimal digits,
zero-padded on the left to a minimum width of two. -/
def pad2 (n : Nat) : String :=
  if n < 10 then "0" ++ toString n else toString n

/-- `format_duration` (main.rs:34-45) on a whole number of seconds
(`Duration::as_secs`). -/
def format_duration (totalSecs : Nat) : String :=
  let hours := totalSecs / 3600
  let minutes := totalSecs % 3600 / 60
  let secs := totalSecs % 60
  if hours > 0 then
    pad2 hours ++ ":" ++ pad2 minutes ++ ":" ++ pad2 secs
  else
    pad2 minutes ++ ":" ++ pad2 secs

/-- Whitespace test used to model trimming (ASCII whitespace; agrees with
Rust `char::is_whitespace` on ASCII text). -/
def isWsChar (c : Char) : Bool :=
  c == ' ' || c == '\t' || c == '\n' || c == '\r'

/-- Modelled from the spec: "the trimmed text" of a line — leading and
trailing whitespace removed (the source's worker body never trims; this
definition exists only to state the spec's version for comparison). -/
def trimText (s : String) : String :=
  String.mk (((s.data.dropWhile isWsChar).reverse.dropWhile isWsChar).reverse)

/-- One line as yielded by `BufReader::lines()`: `some text` for an `Ok` line
(terminator stripped), `none` for an `Err` (read failure) line. -/
abbrev LineResult := Option String

/-- The stream handed to the worker pool (main.rs:130-134): the file's lines
enumerated from index 0, keeping exactly the indices `≥ checkpoint`
(`running` stays `true` in an uncancelled pass over the filter). -/
def filteredLines (lines : List LineResult) (cp : Nat) : List (Nat × LineResult) :=
  lines.enum.filter (fun p => decide (cp ≤ p.1))

/-- Shared mutable state of one run: the `processed` and `valid_count`
counters (main.rs:126-127), `current_position` (main.rs:109), the output
sink's contents, and the sequence of cadence checkpoint writes
(main.rs:156-159) in the order they hit the file. -/
structure RunState where
  processed : Nat
  validCount : Nat
  currentPos : Nat
  outLines : List String
  cpWrites : List Nat
deriving DecidableEq

/-- Run state at dispatch time: counters zero, `current_position`
initialized to the loaded checkpoint (main.rs:109), empty sink delta,
no cadence writes yet. -/
def initState (cp : Nat) : RunState :=
  { processed := 0, validCount := 0, currentPos := cp, outLines := [], cpWrites := [] }

/-- The per-line worker body (main.rs:135-188), for loaded checkpoint `cp`
and validity predicate `P`: increment `processed`, store the line's index
into `current_position`, on an `Ok` line run the predicate and append the
original line to the sink on success, then perform the cadence checkpoint
write when `i % 10000 == 0 && i > checkpoint`. -/
def stepLine (cp : Nat) (P : String → Bool) (st : RunState) (item : Nat × LineResult) :
    RunState :=
  let st1 := { st with processed := st.processed + 1, currentPos := item.1 }
  let st2 := match item.2 with
    | some l =>
        if P l then
          { st1 with outLines := st1.outLines ++ [l], validCount := st1.validCount + 1 }
        else st1
    | none => st1
  if item.1 % 10000 == 0 && decide (cp < item.1) then
    { st2 with cpWrites := st2.cpWrites ++ [item.1] }
  else st2

/-- Execute the per-line bodies of a run in the order given by `sched`
(the completion order of the workers). -/
def runSched (cp : Nat) (P : String → Bool) (sched : List (Nat × LineResult)) : RunState :=
  sched.foldl (stepLine cp P) (initState cp)

/-- A realizable completion order for a run that may be interrupted: each
line is consumed by exactly one worker (indices are duplicate-free) and
every executed item was actually handed out, i.e. belongs to the filtered
stream. Lines still in flight at the interrupt simply do not appear. -/
def SchedOK (lines : List LineResult) (cp : Nat) (sched : List (Nat × LineResult)) : Prop :=
  (sched.map Prod.fst).Nodup ∧ ∀ it ∈ sched, it ∈ filteredLines lines cp

/-- The sequence of values written to the checkpoint file during a run that
is interrupted by Ctrl+C after the bodies in `sched` have completed: the
cadence writes, followed by the handler's write of `current_position`
(main.rs:112-118). -/
def cancelledPersists (cp : Nat) (P : String → Bool) (sched : List (Nat × LineResult)) :
    List Nat :=
  (runSched cp P sched).cpWrites ++ [(runSched cp P sched).currentPos]

/-- Modelled from the spec: the processed count the spec's worker contract
prescribes — "Skip empty/whitespace-only lines without counting them as
processed" — i.e. only lines whose trimmed text is non-empty are counted. -/
def specProcessedCount (sched : List (Nat × LineResult)) : Nat :=
  (sched.filter (fun it => match it.2 with
    | some l => !(trimText l == "")
    | none => false)).length

/-- Modelled from the spec: the output the spec's worker contract
prescribes — "Evaluate the predicate on the trimmed text. If the predicate
succeeds, append the original line to the Output Sink." -/
def specOutputTrimmed (P : String → Bool) (sched : List (Nat × LineResult)) : List String :=
  sched.filterMap (fun it => match it.2 with
    | some l => if P (trimText l) then some l else none
    | none => none)

/-- Output sink contents produced by the worker bodies as the source writes
them (main.rs:143-150): the `Ok` lines on which the predicate succeeds, the
original (untrimmed) text. -/
def outsOf (P : String → Bool) (sched : List (Nat × LineResult)) : List String :=
  sched.filterMap (fun it => match it.2 with
    | some l => if P l then some l else none
    | none => none)

/-- The cadence checkpoint writes emitted while executing `sched` in order
(main.rs:156-159). -/
def writesOf (cp : Nat) (sched : List (Nat × LineResult)) : List Nat :=
  (sched.map Prod.fst).filter (fun i => i % 10000 == 0 && decide (cp < i))

/-- Result of a fully completed, uncancelled run: the final run state, the
states the checkpoint file is put through at completion (the write of
`total_lines` at main.rs:201, then the removal at main.rs:204), and the
file's final state. -/
structure RunResult where
  finalState : RunState
  cpFileStates : List FileState
  cpFile : FileState
deriving DecidableEq

/-- `process_file` on the checkpoint path (main.rs:63-209), for a run that
is never cancelled: load the checkpoint (an I/O read error aborts via `?`
before any line is handed out), hand the filtered stream to the workers,
and on completion write `total_lines` to the checkpoint file and remove it. -/
def processFile (cpf : FileState) (lines : List LineResult) (P : String → Bool) :
    Except Unit RunResult :=
  match loadCheckpoint cpf with
  | Except.error e => Except.error e
  | Except.ok cp =>
      Except.ok
        { finalState := runSched cp P (filteredLines lines cp),
          cpFileStates := [FileState.present (toString lines.length), FileState.absent],
          cpFile := FileState.absent }

set_option maxRecDepth 4000

/-- Executing a list of per-line bodies from an arbitrary state: `processed`
grows by the number of lines, `valid_count` by the number of accepted `Ok`
lines, `current_position` ends at the last executed index (or stays put),
the sink receives exactly the accepted lines in execution order, and the
cadence writes are the indices meeting the cadence condition, in execution
order. -/
theorem foldl_stepLine_char (cp : Nat) (P : String → Bool)
    (sched : List (Nat × LineResult)) (st : RunState) :
    sched.foldl (stepLine cp P) st =
      { processed := st.processed + sched.length,
        validCount := st.validCount + (outsOf P sched).length,
        currentPos := (sched.map Prod.fst).getLastD st.currentPos,
        outLines := st.outLines ++ outsOf P sched,
        cpWrites := st.cpWrites ++ writesOf cp sched } := by
  induction sched generalizing st with
  | nil => simp [outsOf, writesOf]
  | cons it s ih =>
    rcases it with ⟨i, r⟩
    rw [List.foldl_cons, ih]
    simp only [stepLine, List.map_cons, List.getLastD_cons]
    cases r with
    | none =>
        by_cases hc : (i % 10000 == 0 && decide (cp < i)) = true <;>
          simp [outsOf, writesOf, hc, List.filterMap_cons,
            RunState.mk.injEq, Nat.add_assoc, Nat.add_comm 1]
    | some l =>
        by_cases hp : P l = true <;>
          by_cases hc : (i % 10000 == 0 && decide (cp < i)) = true <;>
            simp [outsOf, writesOf, hp, hc, List.filterMap_cons,
              RunState.mk.injEq, Nat.add_assoc, Nat.add_comm 1]

theorem runSched_processed (cp : Nat) (P : String → Bool)
    (sched : List (Nat × LineResult)) : (runSched cp P sched).processed = sched.length := by
  rw [runSched, foldl_stepLine_char]; simp [initState]

theorem runSched_validCount (cp : Nat) (P : String → Bool)
    (sched : List (Nat × LineResult)) :
    (runSched cp P sched).validCount = (outsOf P sched).length := by
  rw [runSched, foldl_stepLine_char]; simp [initState]

theorem runSched_currentPos (cp : Nat) (P : String → Bool)
    (sched : List (Nat × LineResult)) :
    (runSched cp P sched).currentPos = (sched.map Prod.fst).getLastD cp := by
  rw [runSched, foldl_stepLine_char]; simp [initState]

theorem runSched_outLines (cp : Nat) (P : String → Bool)
    (sched : List (Nat × LineResult)) :
    (runSched cp P sched).outLines = outsOf P sched := by
  rw [runSched, foldl_stepLine_char]; simp [initState]

theorem runSched_cpWrites (cp : Nat) (P : String → Bool)
    (sched : List (Nat × LineResult)) :
    (runSched cp P sched).cpWrites = writesOf cp sched := by
  rw [runSched, foldl_stepLine_char]; simp [initState]

/-- Claim C3: for every loaded checkpoint value `N`, the stream handed to the
workers contains exactly the lines with index `≥ N`: membership in the
filtered stream is equivalent to the index being at least `N` and the pair
being a real line of the file. -/
theorem resume_filter_exact (lines : List LineResult) (N i : Nat) (r : LineResult) :
    (i, r) ∈ filteredLines lines N ↔ N ≤ i ∧ lines[i]? = some r := by
  simp only [filteredLines, List.mem_filter, List.mk_mem_enum_iff_getElem?,
    decide_eq_true_eq]
  exact and_comm

/-- Concrete instance of `resume_filter_exact`: with checkpoint 1 over a
two-line file, line index 1 is handed to the workers. -/
theorem resume_filter_exact_witness :
    (1, (some "b" : LineResult)) ∈ filteredLines [some "a", some "b"] 1 :=
  (resume_filter_exact [some "a", some "b"] 1 1 (some "b")).mpr (by decide)

/-- Claim C6: loading the checkpoint returns the parsed integer; an absent
file or unparsable content yields 0, and neither is surfaced as an error. -/
theorem loadCheckpoint_spec (c : String) :
    loadCheckpoint FileState.absent = Except.ok 0
    ∧ (∀ n, rustParseUsize c = some n → loadCheckpoint (FileState.present c) = Except.ok n)
    ∧ (rustParseUsize c = none → loadCheckpoint (FileState.present c) = Except.ok 0)
    ∧ ∀ e : Unit, loadCheckpoint (FileState.present c) ≠ Except.error e := by
  refine ⟨rfl, ?_, ?_, ?_⟩
  · intro n h; simp [loadCheckpoint, h]
  · intro h; simp [loadCheckpoint, h]
  · intro e; simp [loadCheckpoint]

/-- Concrete instances of `loadCheckpoint_spec`: a numeric checkpoint file is
parsed, and corrupt content resets to 0 without an error. -/
theorem loadCheckpoint_spec_witness :
    loadCheckpoint (FileState.present "123") = Except.ok 123
    ∧ loadCheckpoint (FileState.present "garbage") = Except.ok 0 :=
  ⟨(loadCheckpoint_spec "123").2.1 123 (by decide),
   (loadCheckpoint_spec "garbage").2.2.1 (by decide)⟩

/-- Rust's `{:02}` rendering of any value below 100 is exactly two
characters. -/
theorem pad2_length_eq_two : ∀ n, n < 100 → (pad2 n).length = 2 := by decide

/-- Claim C8: `format_duration` splits the duration as
`t = h*3600 + m*60 + s` with minutes and seconds below 60, renders
`HH:MM:SS` when the hour component is non-zero and `MM:SS` otherwise, and
every component is zero-padded to two digits (the hour component whenever it
fits in two digits). -/
theorem format_duration_spec (t : Nat) :
    t = t / 3600 * 3600 + t % 3600 / 60 * 60 + t % 60
    ∧ t % 3600 / 60 < 60 ∧ t % 60 < 60
    ∧ (pad2 (t % 3600 / 60)).length = 2 ∧ (pad2 (t % 60)).length = 2
    ∧ (t / 3600 < 100 → (pad2 (t / 3600)).length = 2)
    ∧ format_duration t =
        (if 0 < t / 3600 then
          pad2 (t / 3600) ++ ":" ++ pad2 (t % 3600 / 60) ++ ":" ++ pad2 (t % 60)
        else
          pad2 (t % 3600 / 60) ++ ":" ++ pad2 (t % 60)) := by
  have hm : t % 3600 / 60 < 60 :=
    Nat.div_lt_of_lt_mul (Nat.mod_lt t (by norm_num))
  have hs : t % 60 < 60 := Nat.mod_lt t (by norm_num)
  have h1 := Nat.div_add_mod t 3600
  have h2 := Nat.div_add_mod (t % 3600) 60
  have h3 : t % 3600 % 60 = t % 60 := Nat.mod_mod_of_dvd t (by norm_num)
  refine ⟨by omega, hm, hs, pad2_length_eq_two _ (by omega), pad2_length_eq_two _ (by omega),
    fun hh => pad2_length_eq_two _ hh, rfl⟩

/-- Concrete instance of `format_duration_spec`: one hour, one minute and one
second renders as `01:01:01`, and the hour component is two digits. -/
theorem format_duration_spec_witness :
    (pad2 (3661 / 3600)).length = 2 ∧ format_duration 3661 = "01:01:01" := by
  refine ⟨(format_duration_spec 3661).2.2.2.2.2.1 (by norm_num), ?_⟩
  have h := (format_duration_spec 3661).2.2.2.2.2.2
  rw [h]
  norm_num
  rfl

/-- Claim C9: in every execution, the valid counter never exceeds the
processed counter (each accepted line first incremented `processed`, and
increments `valid_count` at most once). Quantifying over all schedules covers
every prefix of every interleaving, i.e. every point during a run. -/
theorem valid_le_processed (cp : Nat) (P : String → Bool)
    (sched : List (Nat × LineResult)) :
    (runSched cp P sched).validCount ≤ (runSched cp P sched).processed := by
  rw [runSched_validCount, runSched_processed]
  exact List.length_filterMap_le _ _

/-- Claim C10: an I/O read failure on an existing checkpoint file aborts
`process_file` with the error (the `?` at main.rs:80) instead of treating the
checkpoint as zero; no run state is ever produced. -/
theorem checkpoint_read_error_aborts (lines : List LineResult) (P : String → Bool) :
    processFile FileState.readError lines P = Except.error () := rfl

/-- Claim C7: a fully completed run leaves the checkpoint file absent
(main.rs:201 writes `total_lines`, main.rs:204 removes the file), so the next
run's checkpoint load yields 0. -/
theorem completion_removes_checkpoint (cpf : FileState) (lines : List LineResult)
    (P : String → Bool) (res : RunResult)
    (h : processFile cpf lines P = Except.ok res) :
    res.cpFile = FileState.absent ∧ loadCheckpoint res.cpFile = Except.ok 0 := by
  cases cpf with
  | readError => exact Except.noConfusion h
  | absent =>
      have key : processFile FileState.absent lines P =
          Except.ok { finalState := runSched 0 P (filteredLines lines 0),
                      cpFileStates := [FileState.present (toString lines.length),
                        FileState.absent],
                      cpFile := FileState.absent } := rfl
      rw [key] at h
      injection h with h'
      subst h'
      exact ⟨rfl, rfl⟩
  | present c =>
      have key : processFile (FileState.present c) lines P =
          Except.ok { finalState := runSched ((rustParseUsize c).getD 0) P
                        (filteredLines lines ((rustParseUsize c).getD 0)),
                      cpFileStates := [FileState.present (toString lines.length),
                        FileState.absent],
                      cpFile := FileState.absent } := rfl
      rw [key] at h
      injection h with h'
      subst h'
      exact ⟨rfl, rfl⟩

/-- Concrete instance of `completion_removes_checkpoint`: a completed run
over a one-line file ends with the checkpoint file absent. -/
theorem completion_removes_checkpoint_witness :
    (RunResult.mk (RunState.mk 1 0 0 [] [])
        [FileState.present "1", FileState.absent] FileState.absent).cpFile
      = FileState.absent
    ∧ loadCheckpoint (RunResult.mk (RunState.mk 1 0 0 [] [])
        [FileState.present "1", FileState.absent] FileState.absent).cpFile
      = Except.ok 0 :=
  completion_removes_checkpoint FileState.absent [some "a"] (fun _ => false) _ (by rfl)

/-- Claim C4 counterexample: the worker body has no empty-line check — a
whitespace-only line increments `processed` (main.rs:140 runs
unconditionally), so the processed counter differs from the spec's count of
non-empty, non-whitespace-only lines. -/
theorem empty_line_counted_processed :
    (runSched 0 (fun _ => false) [(0, some " ")]).processed = 1
    ∧ specProcessedCount [(0, some " ")] = 0
    ∧ (runSched 0 (fun _ => false) [(0, some " ")]).processed
        ≠ specProcessedCount [(0, some " ")] := by
  refine ⟨rfl, by decide, by decide⟩

/-- Claim C4, amended: every line handed to a worker increments the
processed counter — empty and whitespace-only lines included — so the
counter equals the total number of lines handled. -/
theorem processed_counts_all_lines (cp : Nat) (P : String → Bool)
    (sched : List (Nat × LineResult)) :
    (runSched cp P sched).processed = sched.length :=
  runSched_processed cp P sched

/-- Claim C5 counterexample: the worker evaluates the predicate on the raw
line (main.rs:145 passes `&line` untrimmed), not on its trimmed text: a
predicate accepting exactly `"x"` rejects the line `" x"`, while the spec's
trim-first contract would accept it. -/
theorem predicate_on_untrimmed_line :
    (runSched 0 (fun s => s == "x") [(0, some " x")]).outLines = []
    ∧ specOutputTrimmed (fun s => s == "x") [(0, some " x")] = [" x"]
    ∧ (runSched 0 (fun s => s == "x") [(0, some " x")]).outLines
        ≠ specOutputTrimmed (fun s => s == "x") [(0, some " x")] := by
  refine ⟨rfl, by decide, by decide⟩

/-- Claim C5, amended: the predicate is evaluated on the line text exactly as
read (line terminator already stripped, no trimming); when it succeeds the
original line is appended to the sink and the valid counter grows by one —
the sink holds exactly the accepted original lines and the valid counter
equals their number. -/
theorem worker_output_characterization (cp : Nat) (P : String → Bool)
    (sched : List (Nat × LineResult)) :
    (runSched cp P sched).outLines = outsOf P sched
    ∧ (runSched cp P sched).validCount = (outsOf P sched).length :=
  ⟨runSched_outLines cp P sched, runSched_validCount cp P sched⟩

/-- Membership of a pair in the filtered stream over a file of `n` identical
lines. -/
theorem mem_filteredLines_replicate (n i : Nat) (a : LineResult) (cp : Nat)
    (h1 : cp ≤ i) (h2 : i < n) :
    (i, a) ∈ filteredLines (List.replicate n a) cp := by
  unfold filteredLines
  rw [List.mem_filter]
  refine ⟨?_, by simpa using h1⟩
  rw [List.mk_mem_enum_iff_getElem?, List.getElem?_replicate]
  simp [h2]

/-- In a `Pairwise (· < ·)` list, every member is bounded by the
last-element-or-default. -/
theorem pairwise_lt_le_getLastD :
    ∀ (l : List Nat) (d : Nat), List.Pairwise (· < ·) l → ∀ x ∈ l, x ≤ l.getLastD d := by
  intro l
  induction l with
  | nil => intro d _ x hx; cases hx
  | cons a t ih =>
    intro d hp x hx
    rw [List.getLastD_cons]
    rcases List.mem_cons.mp hx with h | h
    · subst h
      cases t with
      | nil => simp
      | cons b t' =>
        have hab : x < b := (List.pairwise_cons.mp hp).1 b (List.mem_cons_self b t')
        have hb : b ≤ (b :: t').getLastD x :=
          ih x (List.pairwise_cons.mp hp).2 b (List.mem_cons_self b t')
        exact le_trans hab.le hb
    · exact ih a (List.pairwise_cons.mp hp).2 x h

/-- The sequence of checkpoint-file writes of an interrupted run, computed
from the schedule: the cadence writes in completion order, then the
handler's write of `current_position`. -/
theorem cancelledPersists_eq (cp : Nat) (P : String → Bool)
    (sched : List (Nat × LineResult)) :
    cancelledPersists cp P sched =
      (sched.map Prod.fst).filter (fun i => i % 10000 == 0 && decide (cp < i))
        ++ [(sched.map Prod.fst).getLastD cp] := by
  rw [cancelledPersists, runSched_cpWrites, runSched_currentPos, writesOf]

/-- Claim C2 counterexample: with a 10001-line file and a fresh checkpoint,
the interleaving in which the worker holding line 10000 finishes first (its
cadence write persists 10000) and the worker holding line 0 finishes second
(leaving `current_position = 0`) makes a Ctrl+C persist the value 0 after
the value 10000: the persisted sequence decreases. -/
theorem persists_can_decrease_under_interleaving :
    SchedOK (List.replicate 10001 (some "")) 0 [(10000, some ""), (0, some "")]
    ∧ cancelledPersists 0 (fun _ => false) [(10000, some ""), (0, some "")] = [10000, 0]
    ∧ ¬ List.Chain' (· ≤ ·)
        (cancelledPersists 0 (fun _ => false) [(10000, some ""), (0, some "")]) := by
  have hval : cancelledPersists 0 (fun _ => false) [(10000, some ""), (0, some "")]
      = [10000, 0] := by decide
  refine ⟨⟨by decide, ?_⟩, hval, ?_⟩
  · intro it hit
    rcases List.mem_cons.mp hit with h | h
    · subst h; exact mem_filteredLines_replicate 10001 10000 (some "") 0 (by omega) (by omega)
    · rcases List.mem_cons.mp h with h' | h'
      · subst h'; exact mem_filteredLines_replicate 10001 0 (some "") 0 (by omega) (by omega)
      · cases h'
  · rw [hval]
    simp [List.chain'_cons]

/-- Claim C2, amended: when the workers complete lines in increasing index
order, the persisted checkpoint sequence — cadence writes followed by the
interrupt handler's write — never decreases. (Under other interleavings it
can decrease, by `persists_can_decrease_under_interleaving`.) -/
theorem persists_monotone_inorder (cp : Nat) (P : String → Bool)
    (sched : List (Nat × LineResult))
    (hinc : List.Chain' (· < ·) (sched.map Prod.fst)) :
    List.Chain' (· ≤ ·) (cancelledPersists cp P sched) := by
  rw [cancelledPersists_eq]
  have hpw : List.Pairwise (· < ·) (sched.map Prod.fst) := List.chain'_iff_pairwise.mp hinc
  have hfil : List.Pairwise (· < ·)
      ((sched.map Prod.fst).filter (fun i => i % 10000 == 0 && decide (cp < i))) :=
    hpw.sublist (List.filter_sublist _)
  rw [List.chain'_iff_pairwise, List.pairwise_append]
  refine ⟨hfil.imp (fun h => h.le), List.pairwise_singleton _ _, ?_⟩
  intro x hx b hb
  rcases List.mem_singleton.mp hb with rfl
  exact pairwise_lt_le_getLastD _ cp hpw x (List.mem_of_mem_filter hx)

/-- Concrete instance of `persists_monotone_inorder`: completing lines 0 then
10000 in order gives the non-decreasing persist sequence. -/
theorem persists_monotone_inorder_witness :
    List.Chain' (· ≤ ·)
      (cancelledPersists 0 (fun _ => true) [(0, some "a"), (10000, some "b")]) :=
  persists_monotone_inorder 0 (fun _ => true) [(0, some "a"), (10000, some "b")]
    (by simp [List.chain'_cons])

/-- Claim C1 counterexample: over a fresh three-line file, the interleaving
in which only the worker holding line 2 completes before Ctrl+C (lines 0 and
1 pulled but still in flight) has processed `K = 1` line, yet the handler
persists `current_position = 2 > K`; on resume, lines 0 and 1 — never
processed — sit below the saved checkpoint and are skipped. -/
theorem cancel_checkpoint_out_of_order_violation :
    SchedOK [some "a", some "b", some "c"] 0 [(2, some "c")]
    ∧ (runSched 0 (fun _ => false) [(2, some "c")]).processed = 1
    ∧ (runSched 0 (fun _ => false) [(2, some "c")]).currentPos = 2
    ∧ ¬ ((runSched 0 (fun _ => false) [(2, some "c")]).currentPos
          ≤ (runSched 0 (fun _ => false) [(2, some "c")]).processed)
    ∧ ¬ (∀ i, i < (runSched 0 (fun _ => false) [(2, some "c")]).currentPos →
          i ∈ ([(2, (some "c" : LineResult))].map Prod.fst)) := by
  refine ⟨⟨by decide, by decide⟩, rfl, rfl, by decide, ?_⟩
  intro h
  exact absurd (h 0 (by decide)) (by decide)

/-- The filtered stream with checkpoint 0 is the whole enumerated file. -/
theorem filteredLines_zero (lines : List LineResult) :
    filteredLines lines 0 = lines.enum := by
  rw [filteredLines, List.filter_eq_self]
  intro a _
  simp

/-- Index trace of an in-order prefix execution: the first `K` indices of a
fresh run are `0, 1, …, min K total - 1`. -/
theorem take_filteredLines_zero_map_fst (lines : List LineResult) (K : Nat) :
    ((filteredLines lines 0).take K).map Prod.fst = List.range (min K lines.length) := by
  rw [filteredLines_zero, List.map_take, List.enum_map_fst, List.take_range]

/-- The last element of `range n` with default 0 is `n - 1`. -/
theorem range_getLastD (n : Nat) : (List.range n).getLastD 0 = n - 1 := by
  cases n with
  | zero => simp
  | succ k => rw [List.range_succ, List.getLastD_concat]; omega

/-- Claim C1, amended: on a run started from checkpoint 0 whose completed
lines form an in-order prefix of the stream at the moment of cancellation
(no out-of-order in-flight completions), processing `K` lines persists a
checkpoint at most `K`; every index below the persisted checkpoint was
processed in the interrupted run, and every line at or above it is handed
out again on resume. Under arbitrary interleavings this fails
(`cancel_checkpoint_out_of_order_violation`). -/
theorem cancel_checkpoint_inorder_safe (lines : List LineResult) (P : String → Bool)
    (K : Nat) :
    (runSched 0 P ((filteredLines lines 0).take K)).processed ≤ K
    ∧ (runSched 0 P ((filteredLines lines 0).take K)).currentPos
        ≤ (runSched 0 P ((filteredLines lines 0).take K)).processed
    ∧ (∀ i, i < (runSched 0 P ((filteredLines lines 0).take K)).currentPos →
        i ∈ ((filteredLines lines 0).take K).map Prod.fst)
    ∧ (∀ i r, (i, r) ∈ List.enum lines →
        (runSched 0 P ((filteredLines lines 0).take K)).currentPos ≤ i →
        (i, r) ∈ filteredLines lines
          ((runSched 0 P ((filteredLines lines 0).take K)).currentPos)) := by
  have hmap := take_filteredLines_zero_map_fst lines K
  have hpos : (runSched 0 P ((filteredLines lines 0).take K)).currentPos
      = min K lines.length - 1 := by
    rw [runSched_currentPos, hmap, range_getLastD]
  have hproc : (runSched 0 P ((filteredLines lines 0).take K)).processed
      = min K lines.length := by
    rw [runSched_processed, List.length_take, filteredLines_zero, List.enum_length]
  refine ⟨?_, ?_, ?_, ?_⟩
  · rw [hproc]; omega
  · rw [hpos, hproc]; omega
  · intro i hi
    rw [hmap, List.mem_range]
    rw [hpos] at hi
    omega
  · intro i r hmem hge
    rw [filteredLines, List.mem_filter]
    exact ⟨hmem, by simpa using hge⟩

/-- Concrete instance of `cancel_checkpoint_inorder_safe`: an in-order
one-line prefix of a fresh two-line run persists a checkpoint not above the
processed count, which is not above `K = 1`. -/
theorem cancel_checkpoint_inorder_safe_witness :
    (runSched 0 (fun _ => true) ((filteredLines [some "a", some "b"] 0).take 1)).processed ≤ 1
    ∧ (runSched 0 (fun _ => true) ((filteredLines [some "a", some "b"] 0).take 1)).currentPos
        ≤ (runSched 0 (fun _ => true) ((filteredLines [some "a", some "b"] 0).take 1)).processed :=
  ⟨(cancel_checkpoint_inorder_safe [some "a", some "b"] (fun _ => true) 1).1,
   (cancel_checkpoint_inorder_safe [some "a", some "b"] (fun _ => true) 1).2.1⟩

end MnemonicValidator
